import Mathlib

/-!
Verification of the directory-to-XLSX archive packer (`createXLSXFromDir`).

The Go function walks a source directory and writes a ZIP archive:
a root-level "mimetype" file is written first with Store (no compression),
then `filepath.Walk` visits every entry in lexical order and writes each
regular file whose base name is not "mimetype" as a Deflate entry named by
its forward-slash relative path.

The embedding below models the file system as a tree, the fallible
environment (stat / create / open / copy / readdir failures) as an explicit
fault assignment, and the run of `createXLSXFromDir` as a pure function
producing a trace: the archive entries in write order, the warnings
printed, whether the output file was created or deleted, the balance of
opened and closed handles (Go `defer` closes every handle on each exit
path), and the outcome (success, error value, or runtime panic).
-/

/-- File contents as a byte sequence. -/
abbrev Bytes := List Nat

/-- ZIP compression method: `zip.Store` or `zip.Deflate`. -/
inductive Method where
  | store
  | deflate
deriving Repr, DecidableEq

/-- One archive entry: name (forward-slash relative path), method, bytes. -/
structure Entry where
  name : String
  method : Method
  content : Bytes
deriving Repr, DecidableEq

/-- Warnings printed by the tool (lines 165-168 and 200 of the source). -/
inductive Warning where
  | markerMissing
  | mimetypeMissing
deriving Repr, DecidableEq

/-- Errors produced inside the `filepath.Walk` callback. -/
inductive WalkErr where
  | readDirFailed (dirPath : List String)
  | createEntryFailed (name : String)
  | openFailed (path : List String)
  | copyFailed (path : List String)
deriving Repr, DecidableEq

/-- Error values returned by `createXLSXFromDir`.  `walkFailed` models the
wrapping `fmt.Errorf("error walking the path %s: %w", ...)` at line 238. -/
inductive BuildErr where
  | notFound
  | notADirectory
  | createOutFailed
  | mimeHeaderFailed
  | mimeOpenFailed
  | mimeCopyFailed
  | walkFailed (e : WalkErr)
deriving Repr, DecidableEq

/-- Result of a run: normal return of `nil`, an error value, or a runtime
panic (nil-interface dereference). -/
inductive Outcome where
  | ok
  | err (e : BuildErr)
  | panicked
deriving Repr, DecidableEq

/-- A file-system tree: a regular file with contents, or a directory with a
(raw, OS-ordered) list of named children. -/
inductive FSNode where
  | file (content : Bytes)
  | dir (children : List (String × FSNode))

/-- What `os.Stat(dirPath)` reports about the source path: the path does not
exist, the stat call fails with some other error (e.g. permission), or the
path exists with the given tree. -/
inductive SrcStat where
  | notExist
  | statError
  | present (t : FSNode)

/-- Name resolution of one child inside a directory listing
(`os.Stat`/`os.Open` of `dirPath/name`). -/
def lookupChild : List (String × FSNode) → String → Option FSNode
  | [], _ => none
  | (n, c) :: rest, k => if n = k then some c else lookupChild rest k

/-- `filepath.ToSlash` of `filepath.Rel(dirPath, path)`: the relative path
components joined with forward slashes. -/
def joinSlash : List String → String
  | [] => ""
  | [s] => s
  | s :: rest => s ++ "/" ++ joinSlash rest

/-- `filepath.Base` of the path with relative components `comps`: its last
component. -/
def baseName (comps : List String) : String := comps.getLastD ""

/-- Strict lexicographic byte order on strings (UTF-8 byte order coincides
with code-point order), as used by `sort.Strings` in `readDirNames`. -/
def strLtB : List Char → List Char → Bool
  | [], [] => false
  | [], _ :: _ => true
  | _ :: _, [] => false
  | c :: a, d :: b =>
    if c.toNat < d.toNat then true
    else if d.toNat < c.toNat then false
    else strLtB a b

/-- `a ≤ b` in the directory-listing sort order. -/
def nameLe (a b : String) : Bool := !(strLtB b.data a.data)

/-- Ordered insertion for the directory-listing sort. -/
def insertCh (x : String × FSNode) : List (String × FSNode) → List (String × FSNode)
  | [] => [x]
  | y :: rest => if nameLe x.1 y.1 then x :: y :: rest else y :: insertCh x rest

/-- The sort applied by `readDirNames` to each directory listing. -/
def sortCh : List (String × FSNode) → List (String × FSNode)
  | [] => []
  | x :: rest => insertCh x (sortCh rest)

mutual
/-- The tree with every directory listing sorted as `readDirNames` sorts it.
`filepath.Walk` sorts each listing as it descends; walking the raw tree with
per-level sorting is the same computation as walking `sortTree t` in listing
order, so the builder below is expressed over `sortTree`. -/
def sortTree : FSNode → FSNode
  | .file c => .file c
  | .dir cs => .dir (sortCh (sortTreeL cs))

/-- `sortTree` mapped over a listing (names kept, children sorted). -/
def sortTreeL : List (String × FSNode) → List (String × FSNode)
  | [] => []
  | (n, c) :: rest => (n, sortTree c) :: sortTreeL rest
end

/-- Fault assignment of the I/O environment: which operations fail during
this run.  Paths are relative component lists from the source root. -/
structure Faults where
  createOut : Bool
  mimeHeader : Bool
  mimeOpen : Bool
  mimeCopy : Bool
  readDir : List String → Bool
  createEntry : String → Bool
  openFile : List String → Bool
  copyFile : List String → Bool

/-- The fault-free environment: every I/O operation succeeds. -/
def noFaults : Faults :=
  ⟨false, false, false, false, fun _ => false, fun _ => false, fun _ => false, fun _ => false⟩

/-- Result of the `filepath.Walk` phase: entries written, handles opened and
closed inside the walk callback, and the first error if any. -/
structure WalkRes where
  entries : List Entry
  opened : Nat
  closed : Nat
  err : Option WalkErr
deriving Repr, DecidableEq

mutual
/-- The `filepath.Walk` callback (source lines 203-235) applied to the node
reached by relative components `comps` (root: `comps = []`).  Directories
are visited (no entry, recurse into the sorted listing; a `readDirNames`
failure aborts); a file whose base name is "mimetype" is skipped; any other
file gets a Deflate entry named by its forward-slash relative path, whose
bytes are copied from the opened file, the handle closed by `defer`. -/
def walkRaw (f : Faults) (comps : List String) : FSNode → WalkRes
  | .file c =>
    if baseName comps = "mimetype" then ⟨[], 0, 0, none⟩
    else
      let rel := joinSlash comps
      if f.createEntry rel then ⟨[], 0, 0, some (.createEntryFailed rel)⟩
      else if f.openFile comps then ⟨[⟨rel, .deflate, c⟩], 0, 0, some (.openFailed comps)⟩
      else if f.copyFile comps then ⟨[⟨rel, .deflate, c⟩], 1, 1, some (.copyFailed comps)⟩
      else ⟨[⟨rel, .deflate, c⟩], 1, 1, none⟩
  | .dir cs =>
    if f.readDir comps then ⟨[], 0, 0, some (.readDirFailed comps)⟩
    else walkRawL f comps cs

/-- Walk the children of a directory in listing order, stopping at the
first error (the callback's error propagates out of `filepath.Walk`). -/
def walkRawL (f : Faults) (comps : List String) : List (String × FSNode) → WalkRes
  | [] => ⟨[], 0, 0, none⟩
  | (n, c) :: rest =>
    let r := walkRaw f (comps ++ [n]) c
    match r.err with
    | some _ => r
    | none =>
      let r2 := walkRawL f comps rest
      ⟨r.entries ++ r2.entries, r.opened + r2.opened, r.closed + r2.closed, r2.err⟩
end

/-- Result of the mimetype block (source lines 181-201): entries written,
handles opened and closed, whether the missing-mimetype warning fired, and
the error if any. -/
structure MimeRes where
  entries : List Entry
  opened : Nat
  closed : Nat
  warn : Bool
  err : Option BuildErr
deriving Repr, DecidableEq

/-- The mimetype block: if `dirPath/mimetype` stats successfully, write a
Store-method header named "mimetype" and copy the file's bytes; otherwise
print a warning.  If the child is itself a directory, `os.Open` succeeds
but `io.Copy` from the directory handle fails. -/
def mimeStage (f : Faults) (cs : List (String × FSNode)) : MimeRes :=
  match lookupChild cs "mimetype" with
  | some m =>
    if f.mimeHeader then ⟨[], 0, 0, false, some .mimeHeaderFailed⟩
    else
      let content := match m with | .file c => c | .dir _ => []
      let e : Entry := ⟨"mimetype", .store, content⟩
      if f.mimeOpen then ⟨[e], 0, 0, false, some .mimeOpenFailed⟩
      else
        match m with
        | .file _ =>
          if f.mimeCopy then ⟨[e], 1, 1, false, some .mimeCopyFailed⟩
          else ⟨[e], 1, 1, false, none⟩
        | .dir _ => ⟨[e], 1, 1, false, some .mimeCopyFailed⟩
  | none => ⟨[], 0, 0, true, none⟩

/-- The full trace of one run of `createXLSXFromDir`. `opened`/`closed`
count OS file handles (output file, mimetype file, each walked file);
`writerClosed`/`outClosed` record the two `defer`red closes registered
right after `os.Create`; `outDeleted` records whether the builder ever
removes the output file (it never does). -/
structure BuildTrace where
  entries : List Entry
  warnings : List Warning
  outCreated : Bool
  outDeleted : Bool
  opened : Nat
  closed : Nat
  writerClosed : Bool
  outClosed : Bool
  outcome : Outcome
deriving Repr, DecidableEq

/-- Assembly of the run once the source is known to be a directory: marker
warning, `os.Create` of the output, the two `defer`s, the mimetype block,
the walk, and the wrapping of a walk failure (source lines 165-242). -/
def assembleTrace (f : Faults) (markerPresent : Bool) (m : MimeRes) (w : WalkRes) : BuildTrace :=
  let ws : List Warning := if markerPresent then [] else [.markerMissing]
  if f.createOut then ⟨[], ws, false, false, 0, 0, false, false, .err .createOutFailed⟩
  else
    let ws := ws ++ (if m.warn then [.mimetypeMissing] else [])
    match m.err with
    | some e => ⟨m.entries, ws, true, false, m.opened + 1, m.closed + 1, true, true, .err e⟩
    | none =>
      ⟨m.entries ++ w.entries, ws, true, false, m.opened + w.opened + 1, m.closed + w.closed + 1,
        true, true,
        match w.err with
        | some e => .err (.walkFailed e)
        | none => .ok⟩

/-- The run of `createXLSXFromDir` on a source directory listing. -/
def buildDirTrace (f : Faults) (cs : List (String × FSNode)) : BuildTrace :=
  assembleTrace f (lookupChild cs "[Content_Types].xml").isSome (mimeStage f cs)
    (walkRaw f [] (sortTree (.dir cs)))

/-- `createXLSXFromDir` (source lines 156-243).  A source path that does
not exist returns the not-found error before anything is created; a stat
failure with any other error skips the `os.IsNotExist` branch and then
dereferences the nil `FileInfo` in `dirInfo.IsDir()`, a runtime panic; a
source path that is a regular file returns the not-a-directory error. -/
def createXLSXFromDir (f : Faults) (src : SrcStat) : BuildTrace :=
  match src with
  | .notExist => ⟨[], [], false, false, 0, 0, false, false, .err .notFound⟩
  | .statError => ⟨[], [], false, false, 0, 0, false, false, .panicked⟩
  | .present (.file _) => ⟨[], [], false, false, 0, 0, false, false, .err .notADirectory⟩
  | .present (.dir cs) => buildDirTrace f cs

mutual
/-- All regular files under a node, as (relative component path, bytes)
pairs in listing order.  Applied to `sortTree t` this is the file list in
walk-visit order. -/
def filesUnder : FSNode → List (List String × Bytes)
  | .file c => [([], c)]
  | .dir cs => filesUnderL cs

/-- `filesUnder` over a directory listing. -/
def filesUnderL : List (String × FSNode) → List (List String × Bytes)
  | [] => []
  | (n, c) :: rest => ((filesUnder c).map (fun pb => (n :: pb.1, pb.2))) ++ filesUnderL rest
end

/-- The Deflate entries the walk produces from a file list: one entry per
file whose base name is not "mimetype", named by the slash-joined path. -/
def entriesOfFiles (l : List (List String × Bytes)) : List Entry :=
  l.filterMap (fun pb =>
    if baseName pb.1 = "mimetype" then none
    else some ⟨joinSlash pb.1, .deflate, pb.2⟩)

/-- Resolve a relative component path to a file's bytes in the tree. -/
def findFile : FSNode → List String → Option Bytes
  | .file c, [] => some c
  | .file _, _ :: _ => none
  | .dir _, [] => none
  | .dir cs, n :: rest =>
    match lookupChild cs n with
    | some c => findFile c rest
    | none => none

/-- A well-formed file name: nonempty and without a slash (real directory
entries never contain the path separator). -/
def validName (s : String) : Bool := decide (s ≠ "" ∧ '/' ∉ s.data)

mutual
/-- A well-formed tree: every listing has distinct names and every name is
well formed. -/
def validTree : FSNode → Bool
  | .file _ => true
  | .dir cs => decide ((cs.map Prod.fst).Nodup) && validTreeL cs

/-- `validTree` over a directory listing. -/
def validTreeL : List (String × FSNode) → Bool
  | [] => true
  | (n, c) :: rest => validName n && validTree c && validTreeL rest
end

/-! ### Handle accounting inside the walk -/

mutual
/-- Every handle opened by the walk callback is closed by its `defer`,
whatever faults occur. -/
theorem walk_handles (f : Faults) (comps : List String) (t : FSNode) :
    (walkRaw f comps t).opened = (walkRaw f comps t).closed := by
  cases t with
  | file c =>
    simp only [walkRaw]
    repeat' split
    all_goals rfl
  | dir cs =>
    by_cases h : f.readDir comps
    · simp [walkRaw, h]
    · simpa [walkRaw, h] using walkL_handles f comps cs

/-- Handle balance for the walk over a directory listing. -/
theorem walkL_handles (f : Faults) (comps : List String) (l : List (String × FSNode)) :
    (walkRawL f comps l).opened = (walkRawL f comps l).closed := by
  cases l with
  | nil => simp [walkRawL]
  | cons nc rest =>
    obtain ⟨n, c⟩ := nc
    have h1 := walk_handles f (comps ++ [n]) c
    have h2 := walkL_handles f comps rest
    simp only [walkRawL]
    split
    · exact h1
    · dsimp only
      omega
end

/-! ### Fault-free walk characterization -/

mutual
/-- With no faults the walk from `comps` succeeds and writes exactly one
Deflate entry per file whose base name is not "mimetype", in listing
order, named by the slash-joined relative path, with the file's bytes. -/
theorem walk_nf (comps : List String) (t : FSNode) :
    (walkRaw noFaults comps t).err = none ∧
      (walkRaw noFaults comps t).entries =
        entriesOfFiles ((filesUnder t).map (fun pb => (comps ++ pb.1, pb.2))) := by
  cases t with
  | file c =>
    by_cases h : baseName comps = "mimetype" <;>
      simp [walkRaw, noFaults, filesUnder, entriesOfFiles, h]
  | dir cs =>
    simpa [walkRaw, noFaults, filesUnder] using walkL_nf comps cs

/-- Fault-free walk characterization over a directory listing. -/
theorem walkL_nf (comps : List String) (l : List (String × FSNode)) :
    (walkRawL noFaults comps l).err = none ∧
      (walkRawL noFaults comps l).entries =
        entriesOfFiles ((filesUnderL l).map (fun pb => (comps ++ pb.1, pb.2))) := by
  cases l with
  | nil => simp [walkRawL, filesUnderL, entriesOfFiles]
  | cons nc rest =>
    obtain ⟨n, c⟩ := nc
    obtain ⟨he1, hen1⟩ := walk_nf (comps ++ [n]) c
    obtain ⟨he2, hen2⟩ := walkL_nf comps rest
    simp only [walkRawL, he1]
    constructor
    · exact he2
    · rw [hen1, hen2]
      simp only [entriesOfFiles, filesUnderL, List.map_append, List.filterMap_append,
        List.map_map, Function.comp_def]
      have hshift : (fun (pb : List String × Bytes) => ((comps ++ [n]) ++ pb.1, pb.2)) =
          (fun pb => (comps ++ n :: pb.1, pb.2)) := by
        funext pb
        simp
      rw [hshift]
end

/-! ### The listing sort is a permutation; lookup through it -/

/-- `insertCh` inserts its element, a permutation of consing it. -/
theorem insertCh_perm (x : String × FSNode) (l : List (String × FSNode)) :
    (insertCh x l).Perm (x :: l) := by
  induction l with
  | nil => exact List.Perm.refl _
  | cons y rest ih =>
    simp only [insertCh]
    split
    · exact List.Perm.refl _
    · exact (ih.cons y).trans (List.Perm.swap x y rest)

/-- The listing sort permutes the listing. -/
theorem sortCh_perm (l : List (String × FSNode)) : (sortCh l).Perm l := by
  induction l with
  | nil => exact List.Perm.refl _
  | cons x rest ih => exact (insertCh_perm x (sortCh rest)).trans (ih.cons x)

/-- `sortTreeL` is the value-map of `sortTree` over the listing. -/
theorem sortTreeL_map (cs : List (String × FSNode)) :
    sortTreeL cs = cs.map (fun nc => (nc.1, sortTree nc.2)) := by
  induction cs with
  | nil => simp [sortTreeL]
  | cons nc rest ih => obtain ⟨n, c⟩ := nc; simp [sortTreeL, ih]

/-- A successful lookup names a member of the listing. -/
theorem lookup_mem {cs : List (String × FSNode)} {k : String} {v : FSNode}
    (h : lookupChild cs k = some v) : (k, v) ∈ cs := by
  induction cs with
  | nil => simp [lookupChild] at h
  | cons nc rest ih =>
    obtain ⟨n, c⟩ := nc
    by_cases hk : n = k
    · subst hk
      simp [lookupChild] at h
      subst h
      exact List.mem_cons_self _ _
    · simp [lookupChild, hk] at h
      exact List.mem_cons_of_mem _ (ih h)

/-- On a listing with distinct names, lookup is invariant under
permutation of the listing. -/
theorem lookup_perm {cs₁ cs₂ : List (String × FSNode)} (h : cs₁.Perm cs₂)
    (hn : (cs₁.map Prod.fst).Nodup) (k : String) :
    lookupChild cs₁ k = lookupChild cs₂ k := by
  induction h with
  | nil => rfl
  | cons x h ih =>
    obtain ⟨n, c⟩ := x
    simp only [List.map_cons, List.nodup_cons] at hn
    by_cases hk : n = k <;> simp [lookupChild, hk, ih hn.2]
  | swap x y l =>
    obtain ⟨n₁, c₁⟩ := x
    obtain ⟨n₂, c₂⟩ := y
    simp only [List.map_cons, List.nodup_cons, List.mem_cons] at hn
    by_cases h1 : n₁ = k <;> by_cases h2 : n₂ = k <;>
      simp [lookupChild, h1, h2]
    exact absurd (h2.trans h1.symm) (fun he => hn.1 (Or.inl he))
  | trans h₁ h₂ ih₁ ih₂ =>
    have hn₂ : _ := ((h₁.map Prod.fst).nodup_iff).mp hn
    exact (ih₁ hn).trans (ih₂ hn₂)

/-- Lookup through a value-map of the listing. -/
theorem lookup_map (g : FSNode → FSNode) (cs : List (String × FSNode)) (k : String) :
    lookupChild (cs.map (fun nc => (nc.1, g nc.2))) k = (lookupChild cs k).map g := by
  induction cs with
  | nil => simp [lookupChild]
  | cons nc rest ih =>
    obtain ⟨n, c⟩ := nc
    by_cases hk : n = k <;> simp [lookupChild, hk, ih]

/-- Lookup in the sorted, recursively sorted listing equals lookup in the
raw listing followed by sorting the found child. -/
theorem lookup_sortTree {cs : List (String × FSNode)} (hn : (cs.map Prod.fst).Nodup)
    (k : String) :
    lookupChild (sortCh (sortTreeL cs)) k = (lookupChild cs k).map sortTree := by
  have hperm := sortCh_perm (sortTreeL cs)
  have hkeys : (sortTreeL cs).map Prod.fst = cs.map Prod.fst := by
    rw [sortTreeL_map, List.map_map]
    rfl
  have hn' : ((sortCh (sortTreeL cs)).map Prod.fst).Nodup := by
    rw [((hperm.map Prod.fst).nodup_iff)]
    rw [hkeys]
    exact hn
  rw [lookup_perm hperm hn' k, sortTreeL_map, lookup_map]

/-! ### Well-formed trees, lookup and path resolution -/

/-- Unfolding of `validTree` on a directory. -/
theorem validTree_dir {cs : List (String × FSNode)} :
    validTree (.dir cs) = true ↔ (cs.map Prod.fst).Nodup ∧ validTreeL cs = true := by
  simp [validTree, Bool.and_eq_true, decide_eq_true_iff]

/-- `validTreeL` holds exactly when it holds of every listing element. -/
theorem validTreeL_forall {l : List (String × FSNode)} :
    validTreeL l = true ↔ ∀ nc ∈ l, validName nc.1 = true ∧ validTree nc.2 = true := by
  induction l with
  | nil => simp [validTreeL]
  | cons nc rest ih =>
    obtain ⟨n, c⟩ := nc
    simp [validTreeL, Bool.and_eq_true, ih, and_assoc]

/-- A child found in a well-formed listing is itself well formed. -/
theorem lookup_validTree {cs : List (String × FSNode)} {k : String} {v : FSNode}
    (hl : validTreeL cs = true) (h : lookupChild cs k = some v) : validTree v = true :=
  (validTreeL_forall.mp hl _ (lookup_mem h)).2

/-- `validTreeL` is stable under permutation of the listing. -/
theorem validTreeL_perm {l₁ l₂ : List (String × FSNode)} (h : l₁.Perm l₂)
    (hv : validTreeL l₁ = true) : validTreeL l₂ = true := by
  rw [validTreeL_forall] at hv ⊢
  exact fun nc hnc => hv nc (h.mem_iff.mpr hnc)

mutual
/-- Sorting every listing preserves well-formedness. -/
theorem validTree_sortTree (t : FSNode) (h : validTree t = true) :
    validTree (sortTree t) = true := by
  cases t with
  | file c => simp [sortTree, validTree]
  | dir cs =>
    obtain ⟨hnd, hvl⟩ := validTree_dir.mp h
    rw [sortTree, validTree_dir]
    have hperm := sortCh_perm (sortTreeL cs)
    have hkeys : (sortTreeL cs).map Prod.fst = cs.map Prod.fst := by
      rw [sortTreeL_map, List.map_map]
      rfl
    constructor
    · rw [(hperm.map Prod.fst).nodup_iff, hkeys]
      exact hnd
    · exact validTreeL_perm hperm.symm (validTreeL_sortTreeL cs hvl)

/-- Sorting preserves well-formedness of a listing. -/
theorem validTreeL_sortTreeL (l : List (String × FSNode)) (h : validTreeL l = true) :
    validTreeL (sortTreeL l) = true := by
  cases l with
  | nil => simp [sortTreeL, validTreeL]
  | cons nc rest =>
    obtain ⟨n, c⟩ := nc
    simp only [validTreeL, Bool.and_eq_true] at h ⊢
    exact ⟨⟨h.1.1, validTree_sortTree c h.1.2⟩, validTreeL_sortTreeL rest h.2⟩
end

/-- On a well-formed tree, path resolution is unchanged by sorting. -/
theorem findFile_sortTree {t : FSNode} (p : List String) (h : validTree t = true) :
    findFile (sortTree t) p = findFile t p := by
  induction p generalizing t with
  | nil => cases t <;> simp [sortTree, findFile]
  | cons n rest ih =>
    cases t with
    | file c => simp [sortTree, findFile]
    | dir cs =>
      obtain ⟨hnd, hvl⟩ := validTree_dir.mp h
      simp only [sortTree, findFile]
      rw [lookup_sortTree hnd n]
      cases hc : lookupChild cs n with
      | none => simp
      | some c =>
        simp only [Option.map_some']
        exact ih (lookup_validTree hvl hc)

/-- Every file listed under a directory listing sits under one of its
children. -/
theorem filesUnderL_shape {l : List (String × FSNode)} {pb : List String × Bytes}
    (h : pb ∈ filesUnderL l) :
    ∃ k c q, (k, c) ∈ l ∧ pb.1 = k :: q ∧ (q, pb.2) ∈ filesUnder c := by
  induction l with
  | nil => simp [filesUnderL] at h
  | cons nc rest ih =>
    obtain ⟨n, c⟩ := nc
    simp only [filesUnderL, List.mem_append, List.mem_map] at h
    rcases h with ⟨qb, hqb, heq⟩ | h
    · exact ⟨n, c, qb.1, List.mem_cons_self _ _, by rw [← heq], by
        rw [← heq]
        simpa using hqb⟩
    · obtain ⟨k, c', q, hmem, hp, hq⟩ := ih h
      exact ⟨k, c', q, List.mem_cons_of_mem _ hmem, hp, hq⟩

mutual
/-- Every component of every file path in a well-formed tree is a
well-formed name. -/
theorem filesUnder_names (t : FSNode) (h : validTree t = true) :
    ∀ pb ∈ filesUnder t, ∀ s ∈ pb.1, validName s = true := by
  cases t with
  | file c =>
    intro pb hpb s hs
    simp only [filesUnder, List.mem_singleton] at hpb
    subst hpb
    simp at hs
  | dir cs =>
    intro pb hpb
    exact filesUnderL_names cs (validTree_dir.mp h).2 pb hpb

/-- Path-component well-formedness over a directory listing. -/
theorem filesUnderL_names (l : List (String × FSNode)) (h : validTreeL l = true) :
    ∀ pb ∈ filesUnderL l, ∀ s ∈ pb.1, validName s = true := by
  cases l with
  | nil => intro pb hpb; simp [filesUnderL] at hpb
  | cons nc rest =>
    obtain ⟨n, c⟩ := nc
    simp only [validTreeL, Bool.and_eq_true] at h
    intro pb hpb s hs
    simp only [filesUnderL, List.mem_append, List.mem_map] at hpb
    rcases hpb with ⟨qb, hqb, heq⟩ | hpb
    · rw [← heq] at hs
      simp only [List.mem_cons] at hs
      rcases hs with hs | hs
      · subst hs
        exact h.1.1
      · exact filesUnder_names c h.1.2 qb hqb s hs
    · exact filesUnderL_names rest h.2 pb hpb s hs
end

/-- File paths under a directory listing are nonempty. -/
theorem filesUnderL_ne_nil {l : List (String × FSNode)} {pb : List String × Bytes}
    (h : pb ∈ filesUnderL l) : pb.1 ≠ [] := by
  obtain ⟨k, c, q, _, hp, _⟩ := filesUnderL_shape h
  simp [hp]

/-! ### Slash-joined paths are injective on well-formed components -/

/-- Strings with equal character data are equal. -/
theorem str_ext {a b : String} (h : a.data = b.data) : a = b :=
  congrArg String.mk h

/-- A well-formed name contains no slash. -/
theorem slash_not_mem_of_validName {s : String} (h : validName s = true) : '/' ∉ s.data :=
  (of_decide_eq_true h).2

/-- The character data of the slash separator. -/
theorem slash_data : ("/" : String).data = ['/'] := by decide

/-- Character data of a two-or-more component slash join. -/
theorem joinSlash_cons_cons_data (a b : String) (rest : List String) :
    (joinSlash (a :: b :: rest)).data = a.data ++ '/' :: (joinSlash (b :: rest)).data := by
  show (a ++ "/" ++ joinSlash (b :: rest)).data = _
  rw [String.data_append, String.data_append, slash_data, List.append_assoc]
  rfl

/-- Splitting a character list at a slash that occurs in neither prefix is
unambiguous. -/
theorem slash_split_inj {l₁ r₁ l₂ r₂ : List Char}
    (h : l₁ ++ '/' :: r₁ = l₂ ++ '/' :: r₂) (h₁ : '/' ∉ l₁) (h₂ : '/' ∉ l₂) :
    l₁ = l₂ ∧ r₁ = r₂ := by
  induction l₁ generalizing l₂ with
  | nil =>
    cases l₂ with
    | nil => simpa using h
    | cons d l₂' =>
      exfalso
      simp only [List.nil_append, List.cons_append, List.cons.injEq] at h
      exact h₂ (h.1 ▸ List.mem_cons_self _ _)
  | cons c l₁' ih =>
    cases l₂ with
    | nil =>
      exfalso
      simp only [List.nil_append, List.cons_append, List.cons.injEq] at h
      exact h₁ (h.1.symm ▸ List.mem_cons_self _ _)
    | cons d l₂' =>
      simp only [List.cons_append, List.cons.injEq] at h
      have h₁' : '/' ∉ l₁' := fun hm => h₁ (List.mem_cons_of_mem _ hm)
      have h₂' : '/' ∉ l₂' := fun hm => h₂ (List.mem_cons_of_mem _ hm)
      obtain ⟨hl, hr⟩ := ih h.2 h₁' h₂'
      exact ⟨by rw [h.1, hl], hr⟩

/-- `joinSlash` is injective on nonempty paths of well-formed names. -/
theorem joinSlash_inj {p q : List String}
    (hp : ∀ s ∈ p, validName s = true) (hq : ∀ s ∈ q, validName s = true)
    (hp0 : p ≠ []) (hq0 : q ≠ []) (h : joinSlash p = joinSlash q) : p = q := by
  induction p generalizing q with
  | nil => exact absurd rfl hp0
  | cons a p' ih =>
    cases q with
    | nil => exact absurd rfl hq0
    | cons b q' =>
      cases p' with
      | nil =>
        cases q' with
        | nil => simpa [joinSlash] using h
        | cons b₂ q'' =>
          exfalso
          have hd := congrArg String.data h
          rw [joinSlash_cons_cons_data] at hd
          have hmem : '/' ∈ (joinSlash [a]).data := by
            rw [hd]
            simp
          exact slash_not_mem_of_validName (hp a (List.mem_cons_self _ _))
            (by simpa [joinSlash] using hmem)
      | cons a₂ p'' =>
        cases q' with
        | nil =>
          exfalso
          have hd := congrArg String.data h
          rw [joinSlash_cons_cons_data] at hd
          have hmem : '/' ∈ (joinSlash [b]).data := by
            rw [← hd]
            simp
          exact slash_not_mem_of_validName (hq b (List.mem_cons_self _ _))
            (by simpa [joinSlash] using hmem)
        | cons b₂ q'' =>
          have hd := congrArg String.data h
          rw [joinSlash_cons_cons_data, joinSlash_cons_cons_data] at hd
          obtain ⟨hab, hrest⟩ := slash_split_inj hd
            (slash_not_mem_of_validName (hp a (List.mem_cons_self _ _)))
            (slash_not_mem_of_validName (hq b (List.mem_cons_self _ _)))
          have hab' : a = b := str_ext hab
          have htail : a₂ :: p'' = b₂ :: q'' := by
            refine ih (fun s hs => hp s (List.mem_cons_of_mem _ hs))
              (fun s hs => hq s (List.mem_cons_of_mem _ hs)) ?_ ?_ (str_ext hrest)
            · simp
            · simp
          rw [hab', htail]

/-- A nonempty well-formed path whose base is not "mimetype" never joins to
the string "mimetype". -/
theorem joinSlash_ne_mimetype {p : List String}
    (hp : ∀ s ∈ p, validName s = true) (hp0 : p ≠ [])
    (hb : baseName p ≠ "mimetype") : joinSlash p ≠ "mimetype" := by
  cases p with
  | nil => exact absurd rfl hp0
  | cons a p' =>
    cases p' with
    | nil => simpa [joinSlash, baseName] using hb
    | cons a₂ p'' =>
      intro he
      have hd := congrArg String.data he
      rw [joinSlash_cons_cons_data] at hd
      have hmem : '/' ∈ ("mimetype" : String).data := by
        rw [← hd]
        simp
      exact absurd hmem (by decide)

/-! ### Uniqueness of the entry for each resolved file -/

/-- Files under a child named differently never match a path starting with
`n`. -/
theorem filter_map_ne_head {n m : String} {rest : List String}
    {fl : List (List String × Bytes)} (hne : m ≠ n) :
    (fl.map (fun pb => (m :: pb.1, pb.2))).filter
      (fun pb => decide (pb.1 = n :: rest)) = [] := by
  induction fl with
  | nil => simp
  | cons pb fl' ih => simp [List.filter_cons, hne, ih]

/-- Files under the matching child correspond one-to-one with their
subpaths. -/
theorem filter_map_cons_eq {n : String} {rest : List String}
    {fl : List (List String × Bytes)} :
    (fl.map (fun pb => (n :: pb.1, pb.2))).filter
      (fun pb => decide (pb.1 = n :: rest)) =
      (fl.filter (fun pb => decide (pb.1 = rest))).map (fun pb => (n :: pb.1, pb.2)) := by
  induction fl with
  | nil => simp
  | cons pb fl' ih =>
    by_cases h : pb.1 = rest
    · simp [List.filter_cons, h, ih]
    · simp [List.filter_cons, h, ih]

/-- A listing without the key `n` contributes no file whose path starts
with `n`. -/
theorem filter_filesUnderL_not_key {l : List (String × FSNode)} {n : String}
    {rest : List String} (h : n ∉ l.map Prod.fst) :
    (filesUnderL l).filter (fun pb => decide (pb.1 = n :: rest)) = [] := by
  rw [List.filter_eq_nil_iff]
  intro pb hpb
  obtain ⟨k, c, q, hmem, hp, _⟩ := filesUnderL_shape hpb
  have hkne : k ≠ n := fun he =>
    h (he ▸ List.mem_map_of_mem Prod.fst hmem)
  simp [hp, hkne]

/-- In a well-formed tree, a resolvable file occurs exactly once in the
file list, at its path. -/
theorem filesUnder_filter {t : FSNode} {p : List String} {b : Bytes}
    (hv : validTree t = true) (hf : findFile t p = some b) :
    (filesUnder t).filter (fun pb => decide (pb.1 = p)) = [(p, b)] := by
  induction p generalizing t with
  | nil =>
    cases t with
    | file c =>
      simp only [findFile, Option.some.injEq] at hf
      subst hf
      simp [filesUnder, List.filter_cons]
    | dir cs => simp [findFile] at hf
  | cons n rest ih =>
    cases t with
    | file c => simp [findFile] at hf
    | dir cs =>
      obtain ⟨hnd, hvl⟩ := validTree_dir.mp hv
      cases hc : lookupChild cs n with
      | none => simp [findFile, hc] at hf
      | some c =>
        have hfc : findFile c rest = some b := by simpa [findFile, hc] using hf
        have hvc : validTree c = true := lookup_validTree hvl hc
        simp only [filesUnder]
        clear hf hv
        induction cs with
        | nil => simp [lookupChild] at hc
        | cons nc cs' ihl =>
          obtain ⟨m, d⟩ := nc
          simp only [List.map_cons, List.nodup_cons] at hnd
          simp only [validTreeL, Bool.and_eq_true] at hvl
          simp only [filesUnderL, List.filter_append]
          by_cases hm : m = n
          · subst hm
            have hd : d = c := by simpa [lookupChild] using hc
            subst hd
            rw [filter_map_cons_eq, ih hvc hfc,
              filter_filesUnderL_not_key hnd.1]
            simp
          · have hc' : lookupChild cs' n = some c := by
              simpa [lookupChild, hm] using hc
            rw [filter_map_ne_head hm, ihl hnd.2 hvl.2 hc']
            simp

/-- Filtering the walk entries by a fixed well-formed name picks exactly
the entries of the files at that path. -/
theorem entriesOfFiles_filter {L : List (List String × Bytes)} {p : List String}
    (hL : ∀ pb ∈ L, pb.1 ≠ [] ∧ ∀ s ∈ pb.1, validName s = true)
    (hp : ∀ s ∈ p, validName s = true) (hp0 : p ≠ [])
    (hbase : baseName p ≠ "mimetype") :
    (entriesOfFiles L).filter (fun e => decide (e.name = joinSlash p)) =
      (L.filter (fun pb => decide (pb.1 = p))).map
        (fun pb => ⟨joinSlash pb.1, .deflate, pb.2⟩) := by
  induction L with
  | nil => simp [entriesOfFiles]
  | cons pb L' ih =>
    have hpb := hL pb (List.mem_cons_self _ _)
    have hL' : ∀ x ∈ L', x.1 ≠ [] ∧ ∀ s ∈ x.1, validName s = true :=
      fun x hx => hL x (List.mem_cons_of_mem _ hx)
    have ihr := ih hL'
    simp only [entriesOfFiles] at ihr ⊢
    by_cases hb : baseName pb.1 = "mimetype"
    · have hne : ¬(pb.1 = p) := fun he => hbase (he ▸ hb)
      simp [List.filterMap_cons, List.filter_cons, hb, hne, ihr]
    · by_cases heq : pb.1 = p
      · rw [heq] at hb
        simp [List.filterMap_cons, List.filter_cons, heq, hb, ihr]
      · have hname : ¬(joinSlash pb.1 = joinSlash p) :=
          fun hj => heq (joinSlash_inj hpb.2 hp hpb.1 hp0 hj)
        simp [List.filterMap_cons, List.filter_cons, hb, heq, hname, ihr]

/-- The walk entries are the non-mimetype files mapped to Deflate
entries. -/
theorem entriesOfFiles_eq_map_filter (L : List (List String × Bytes)) :
    entriesOfFiles L =
      (L.filter (fun pb => !(decide (baseName pb.1 = "mimetype")))).map
        (fun pb => ⟨joinSlash pb.1, .deflate, pb.2⟩) := by
  induction L with
  | nil => simp [entriesOfFiles]
  | cons pb L' ih =>
    simp only [entriesOfFiles] at ih ⊢
    by_cases hb : baseName pb.1 = "mimetype" <;>
      simp [List.filterMap_cons, List.filter_cons, hb, ih]

/-! ### The build on a fault-free environment -/

/-- The fault-free environment never fails `os.Create`. -/
theorem noFaults_createOut : noFaults.createOut = false := rfl

/-- Fault-free walk from the root: no error, and the entries are the
non-mimetype files of the (sorted) tree. -/
theorem walkRoot_nf (t : FSNode) :
    (walkRaw noFaults [] t).err = none ∧
      (walkRaw noFaults [] t).entries = entriesOfFiles (filesUnder t) := by
  obtain ⟨he, hen⟩ := walk_nf [] t
  refine ⟨he, ?_⟩
  rw [hen]
  congr 1
  simp

/-- Fault-free mimetype block when no "mimetype" child exists. -/
theorem mimeStage_nf_none {cs : List (String × FSNode)}
    (h : lookupChild cs "mimetype" = none) :
    mimeStage noFaults cs = ⟨[], 0, 0, true, none⟩ := by
  simp [mimeStage, h]

/-- Fault-free mimetype block when the "mimetype" child is a regular
file. -/
theorem mimeStage_nf_file {cs : List (String × FSNode)} {m : Bytes}
    (h : lookupChild cs "mimetype" = some (.file m)) :
    mimeStage noFaults cs = ⟨[⟨"mimetype", .store, m⟩], 1, 1, false, none⟩ := by
  simp [mimeStage, h, noFaults]

/-- Mimetype block when the "mimetype" child is itself a directory:
`io.Copy` from the opened directory handle fails. -/
theorem mimeStage_nf_dir {cs : List (String × FSNode)} {d : List (String × FSNode)}
    (h : lookupChild cs "mimetype" = some (.dir d)) :
    mimeStage noFaults cs =
      ⟨[⟨"mimetype", .store, []⟩], 1, 1, false, some .mimeCopyFailed⟩ := by
  simp [mimeStage, h, noFaults]

/-- Fault-free build with no "mimetype" child: success, the mimetype
warning fires, and the entries are exactly the non-mimetype walk
entries. -/
theorem build_nf_none {cs : List (String × FSNode)}
    (h : lookupChild cs "mimetype" = none) :
    (buildDirTrace noFaults cs).entries = entriesOfFiles (filesUnder (sortTree (.dir cs))) ∧
      (buildDirTrace noFaults cs).outcome = .ok ∧
      Warning.mimetypeMissing ∈ (buildDirTrace noFaults cs).warnings := by
  obtain ⟨he, hen⟩ := walkRoot_nf (sortTree (.dir cs))
  unfold buildDirTrace assembleTrace
  rw [mimeStage_nf_none h]
  simp [noFaults_createOut, he, hen]

/-- Fault-free build whose "mimetype" child is a file: success, and the
entries are the Store mimetype entry followed by the walk entries. -/
theorem build_nf_file {cs : List (String × FSNode)} {m : Bytes}
    (h : lookupChild cs "mimetype" = some (.file m)) :
    (buildDirTrace noFaults cs).entries =
        ⟨"mimetype", .store, m⟩ :: entriesOfFiles (filesUnder (sortTree (.dir cs))) ∧
      (buildDirTrace noFaults cs).outcome = .ok := by
  obtain ⟨he, hen⟩ := walkRoot_nf (sortTree (.dir cs))
  unfold buildDirTrace assembleTrace
  rw [mimeStage_nf_file h]
  simp [noFaults_createOut, he, hen]

/-- Fault-free build whose "mimetype" child is a directory fails with the
copy error. -/
theorem build_nf_dir_mimetype {cs : List (String × FSNode)}
    {d : List (String × FSNode)} (h : lookupChild cs "mimetype" = some (.dir d)) :
    (buildDirTrace noFaults cs).outcome = .err .mimeCopyFailed := by
  unfold buildDirTrace assembleTrace
  rw [mimeStage_nf_dir h]
  simp [noFaults]

/-! ### Remaining support lemmas -/

/-- Every walk entry comes from a listed file. -/
theorem entriesOfFiles_mem {L : List (List String × Bytes)} {e : Entry}
    (h : e ∈ entriesOfFiles L) :
    ∃ pb, pb ∈ L ∧ e = ⟨joinSlash pb.1, .deflate, pb.2⟩ := by
  simp only [entriesOfFiles, List.mem_filterMap] at h
  obtain ⟨pb, hpb, hf⟩ := h
  by_cases hb : baseName pb.1 = "mimetype"
  · simp [hb] at hf
  · simp only [hb, if_false] at hf
    exact ⟨pb, hpb, (Option.some.injEq _ _ ▸ hf).symm⟩

/-- A file under a listed child is a file under the listing. -/
theorem filesUnderL_mem_of {l : List (String × FSNode)} {k : String} {c : FSNode}
    {q : List String} {b : Bytes} (hkc : (k, c) ∈ l) (hq : (q, b) ∈ filesUnder c) :
    (k :: q, b) ∈ filesUnderL l := by
  induction l with
  | nil => simp at hkc
  | cons nc rest ih =>
    obtain ⟨n, d⟩ := nc
    simp only [filesUnderL, List.mem_append, List.mem_map]
    rcases List.mem_cons.mp hkc with heq | hmem
    · obtain ⟨hn, hd⟩ := Prod.mk.injEq .. ▸ heq
      subst hn
      subst hd
      exact Or.inl ⟨(q, b), hq, rfl⟩
    · exact Or.inr (ih hmem)

/-- A root-level "mimetype" regular file appears in the sorted tree's file
list at path `["mimetype"]`. -/
theorem mimetype_mem_filesUnder {cs : List (String × FSNode)} {m : Bytes}
    (h : lookupChild cs "mimetype" = some (.file m)) :
    (["mimetype"], m) ∈ filesUnder (sortTree (.dir cs)) := by
  have hmem : ("mimetype", FSNode.file m) ∈ cs := lookup_mem h
  have hmem' : ("mimetype", FSNode.file m) ∈ sortTreeL cs := by
    rw [sortTreeL_map]
    exact List.mem_map_of_mem _ hmem
  have hmem'' : ("mimetype", FSNode.file m) ∈ sortCh (sortTreeL cs) :=
    (sortCh_perm (sortTreeL cs)).mem_iff.mpr hmem'
  show (["mimetype"], m) ∈ filesUnderL (sortCh (sortTreeL cs))
  exact filesUnderL_mem_of hmem'' (by simp [filesUnder])

/-- Components of a resolvable path in a well-formed tree are well-formed
names. -/
theorem findFile_names {t : FSNode} {p : List String} {b : Bytes}
    (hv : validTree t = true) (hf : findFile t p = some b) :
    ∀ s ∈ p, validName s = true := by
  induction p generalizing t with
  | nil => simp
  | cons n rest ih =>
    cases t with
    | file c => simp [findFile] at hf
    | dir cs =>
      obtain ⟨hnd, hvl⟩ := validTree_dir.mp hv
      cases hc : lookupChild cs n with
      | none => simp [findFile, hc] at hf
      | some c =>
        have hfc : findFile c rest = some b := by simpa [findFile, hc] using hf
        intro s hs
        rcases List.mem_cons.mp hs with heq | hmem
        · subst heq
          exact (validTreeL_forall.mp hvl _ (lookup_mem hc)).1
        · exact ih (lookup_validTree hvl hc) hfc s hmem

/-- The mimetype block closes every handle it opens. -/
theorem mimeStage_handles (f : Faults) (cs : List (String × FSNode)) :
    (mimeStage f cs).opened = (mimeStage f cs).closed := by
  cases h : lookupChild cs "mimetype" with
  | none => simp [mimeStage, h]
  | some m =>
    cases m with
    | file c =>
      simp only [mimeStage, h]
      repeat' split
      all_goals rfl
    | dir d =>
      simp only [mimeStage, h]
      repeat' split
      all_goals rfl

/-- The mimetype block depends on the listing only through the sorted view
of its "mimetype" child. -/
theorem mimeStage_congr (f : Faults) {cs₁ cs₂ : List (String × FSNode)}
    (h : (lookupChild cs₁ "mimetype").map sortTree =
      (lookupChild cs₂ "mimetype").map sortTree) :
    mimeStage f cs₁ = mimeStage f cs₂ := by
  cases h₁ : lookupChild cs₁ "mimetype" with
  | none =>
    cases h₂ : lookupChild cs₂ "mimetype" with
    | none => simp [mimeStage, h₁, h₂]
    | some m₂ => rw [h₁, h₂] at h; simp at h
  | some m₁ =>
    cases h₂ : lookupChild cs₂ "mimetype" with
    | none => rw [h₁, h₂] at h; simp at h
    | some m₂ =>
      rw [h₁, h₂] at h
      simp only [Option.map_some', Option.some.injEq] at h
      cases m₁ with
      | file c₁ =>
        cases m₂ with
        | file c₂ =>
          have hc : c₁ = c₂ := by simpa [sortTree] using h
          subst hc
          simp [mimeStage, h₁, h₂]
        | dir d₂ => simp [sortTree] at h
      | dir d₁ =>
        cases m₂ with
        | file c₂ => simp [sortTree] at h
        | dir d₂ => simp [mimeStage, h₁, h₂]

/-- Two listings with distinct names and the same sorted view resolve every
name to the same sorted child. -/
theorem lookup_map_sortTree_eq {cs₁ cs₂ : List (String × FSNode)}
    (hn₁ : (cs₁.map Prod.fst).Nodup) (hn₂ : (cs₂.map Prod.fst).Nodup)
    (heq : sortTree (.dir cs₁) = sortTree (.dir cs₂)) (k : String) :
    (lookupChild cs₁ k).map sortTree = (lookupChild cs₂ k).map sortTree := by
  have h : sortCh (sortTreeL cs₁) = sortCh (sortTreeL cs₂) := by
    simpa [sortTree] using heq
  rw [← lookup_sortTree hn₁ k, ← lookup_sortTree hn₂ k, h]

/-- The marker warning fires whenever `[Content_Types].xml` is absent, on
every build path. -/
theorem build_marker_warning (f : Faults) {cs : List (String × FSNode)}
    (h : lookupChild cs "[Content_Types].xml" = none) :
    Warning.markerMissing ∈ (buildDirTrace f cs).warnings := by
  unfold buildDirTrace assembleTrace
  rw [h]
  by_cases hc : f.createOut
  · simp [hc]
  · cases he : (mimeStage f cs).err <;> simp [hc, he]

/-- The builder never deletes the output file, on any path. -/
theorem build_outDeleted (f : Faults) (src : SrcStat) :
    (createXLSXFromDir f src).outDeleted = false := by
  cases src with
  | notExist => rfl
  | statError => rfl
  | present t =>
    cases t with
    | file c => rfl
    | dir cs =>
      show (buildDirTrace f cs).outDeleted = false
      unfold buildDirTrace assembleTrace
      by_cases hc : f.createOut
      · simp [hc]
      · cases he : (mimeStage f cs).err <;> simp [hc, he]

/-- A failing `os.Create` aborts with its error before the output file
exists. -/
theorem build_createOut_err (f : Faults) (cs : List (String × FSNode))
    (h : f.createOut = true) :
    (buildDirTrace f cs).outcome = .err .createOutFailed ∧
      (buildDirTrace f cs).outCreated = false := by
  unfold buildDirTrace assembleTrace
  simp [h]

/-- A mimetype-block failure aborts with its error, output left in
place. -/
theorem build_mime_err (f : Faults) {cs : List (String × FSNode)} {e : BuildErr}
    (hc : f.createOut = false) (h : (mimeStage f cs).err = some e) :
    (buildDirTrace f cs).outcome = .err e ∧
      (buildDirTrace f cs).outCreated = true := by
  unfold buildDirTrace assembleTrace
  simp [hc, h]

/-- A walk failure aborts with the wrapped walk error, output left in
place. -/
theorem build_walk_err (f : Faults) {cs : List (String × FSNode)} {we : WalkErr}
    (hc : f.createOut = false) (hm : (mimeStage f cs).err = none)
    (hw : (walkRaw f [] (sortTree (.dir cs))).err = some we) :
    (buildDirTrace f cs).outcome = .err (.walkFailed we) ∧
      (buildDirTrace f cs).outCreated = true := by
  unfold buildDirTrace assembleTrace
  simp [hc, hm, hw]

/-! ### Claim theorems -/

/-- C1: for every source directory with a regular file named "mimetype"
directly under its root, the fault-free build's first archive entry is
named exactly "mimetype", uses Store (no compression), and carries the
source file's bytes verbatim. -/
theorem C1_mimetype_first_entry {cs : List (String × FSNode)} {m : Bytes}
    (h : lookupChild cs "mimetype" = some (.file m)) :
    (createXLSXFromDir noFaults (.present (.dir cs))).entries.head? =
      some ⟨"mimetype", .store, m⟩ := by
  show (buildDirTrace noFaults cs).entries.head? = _
  rw [(build_nf_file h).1]
  rfl

/-- C1 witness: a concrete directory with a mimetype file. -/
theorem C1_mimetype_first_entry_wit :
    lookupChild [("mimetype", FSNode.file [80, 75]), ("x.xml", FSNode.file [1])] "mimetype" =
        some (.file [80, 75]) ∧
      (createXLSXFromDir noFaults (.present (.dir
          [("mimetype", FSNode.file [80, 75]), ("x.xml", FSNode.file [1])]))).entries.head? =
        some ⟨"mimetype", .store, [80, 75]⟩ :=
  ⟨rfl, C1_mimetype_first_entry rfl⟩

/-- C2 counterexample: the walk skips every file whose base name is
"mimetype", not only the root-level one.  In this tree `sub/mimetype` is a
regular file that is not the root-level mimetype, the build succeeds, yet
the archive contains no entry at all, refuting the claimed
one-entry-per-file property as stated. -/
theorem C2_counterexample :
    findFile (.dir [("sub", FSNode.dir [("mimetype", FSNode.file [1])])])
        ["sub", "mimetype"] = some [1] ∧
      (createXLSXFromDir noFaults (.present
          (.dir [("sub", FSNode.dir [("mimetype", FSNode.file [1])])]))).outcome = .ok ∧
      (createXLSXFromDir noFaults (.present
          (.dir [("sub", FSNode.dir [("mimetype", FSNode.file [1])])]))).entries = [] := by
  decide

/-- C2 (amended): in a successful fault-free build over a well-formed tree,
every regular file whose base name is not "mimetype" yields exactly one
archive entry, named by its forward-slash relative path, in Deflate mode,
with byte-identical content; files whose base name is "mimetype" (at any
depth) are skipped by the walk. -/
theorem C2_amended_unique_entry {cs : List (String × FSNode)} {p : List String} {b : Bytes}
    (hv : validTree (.dir cs) = true)
    (hf : findFile (.dir cs) p = some b)
    (hbase : baseName p ≠ "mimetype")
    (hok : (createXLSXFromDir noFaults (.present (.dir cs))).outcome = .ok) :
    (createXLSXFromDir noFaults (.present (.dir cs))).entries.filter
        (fun e => decide (e.name = joinSlash p)) =
      [⟨joinSlash p, .deflate, b⟩] := by
  have hok' : (buildDirTrace noFaults cs).outcome = .ok := hok
  have hp0 : p ≠ [] := by
    intro h
    subst h
    simp [findFile] at hf
  have hvT : validTree (sortTree (.dir cs)) = true := validTree_sortTree _ hv
  have hfT : findFile (sortTree (.dir cs)) p = some b := by
    rw [findFile_sortTree p hv]
    exact hf
  have hnames : ∀ s ∈ p, validName s = true := findFile_names hv hf
  have hL : ∀ pb ∈ filesUnder (sortTree (.dir cs)),
      pb.1 ≠ [] ∧ ∀ s ∈ pb.1, validName s = true := by
    intro pb hpb
    have hpb' : pb ∈ filesUnderL (sortCh (sortTreeL cs)) := hpb
    exact ⟨filesUnderL_ne_nil hpb', filesUnder_names _ hvT pb hpb⟩
  have hkey := entriesOfFiles_filter hL hnames hp0 hbase
  have hfind := filesUnder_filter hvT hfT
  show (buildDirTrace noFaults cs).entries.filter _ = _
  cases hm : lookupChild cs "mimetype" with
  | none =>
    rw [(build_nf_none hm).1, hkey, hfind]
    rfl
  | some mnode =>
    cases mnode with
    | file m =>
      have hne : ¬((Entry.mk "mimetype" .store m).name = joinSlash p) :=
        fun he => joinSlash_ne_mimetype hnames hp0 hbase he.symm
      rw [(build_nf_file hm).1]
      simp only [List.filter_cons]
      rw [if_neg (by simpa using hne)]
      rw [hkey, hfind]
      rfl
    | dir d =>
      rw [build_nf_dir_mimetype hm] at hok'
      simp at hok'

/-- C2 (amended) witness: a concrete directory with a mimetype file and a
regular file. -/
theorem C2_amended_unique_entry_wit :
    validTree (.dir [("mimetype", FSNode.file [0]), ("a.txt", FSNode.file [1, 2])]) = true ∧
      findFile (.dir [("mimetype", FSNode.file [0]), ("a.txt", FSNode.file [1, 2])])
          ["a.txt"] = some [1, 2] ∧
      baseName ["a.txt"] ≠ "mimetype" ∧
      (createXLSXFromDir noFaults (.present
          (.dir [("mimetype", FSNode.file [0]), ("a.txt", FSNode.file [1, 2])]))).outcome = .ok ∧
      (createXLSXFromDir noFaults (.present
            (.dir [("mimetype", FSNode.file [0]), ("a.txt", FSNode.file [1, 2])]))).entries.filter
          (fun e => decide (e.name = joinSlash ["a.txt"])) =
        [⟨joinSlash ["a.txt"], .deflate, [1, 2]⟩] :=
  ⟨by decide, by decide, by decide, by decide,
    C2_amended_unique_entry (by decide) (by decide) (by decide) (by decide)⟩

/-- C3: a missing source path fails with the not-found error and a
non-directory source fails with the not-a-directory error, in both cases
before the output file is created. -/
theorem C3_precondition_checks (f : Faults) (c : Bytes) :
    ((createXLSXFromDir f .notExist).outcome = .err .notFound ∧
      (createXLSXFromDir f .notExist).outCreated = false) ∧
    ((createXLSXFromDir f (.present (.file c))).outcome = .err .notADirectory ∧
      (createXLSXFromDir f (.present (.file c))).outCreated = false) :=
  ⟨⟨rfl, rfl⟩, ⟨rfl, rfl⟩⟩

/-- Counterexample tree for C4: a root mimetype file plus three other
regular files, one of which is a nested file named "mimetype". -/
def csC4 : List (String × FSNode) :=
  [("mimetype", .file [0]), ("sub", .dir [("mimetype", .file [1, 2])]),
   ("a", .file [3]), ("b", .file [4])]

/-- C4 counterexample: this tree has a root-level "mimetype" file and
exactly three other regular files (paths other than `["mimetype"]`), yet
the fault-free build succeeds with only 3 entries, not 4: the nested
`sub/mimetype` file is skipped by the walk. -/
theorem C4_counterexample :
    lookupChild csC4 "mimetype" = some (.file [0]) ∧
      ((filesUnder (sortTree (.dir csC4))).filter
        (fun pb => decide (pb.1 ≠ ["mimetype"]))).length = 3 ∧
      (createXLSXFromDir noFaults (.present (.dir csC4))).outcome = .ok ∧
      (createXLSXFromDir noFaults (.present (.dir csC4))).entries.length = 3 :=
  ⟨rfl, by decide, by decide, by decide⟩

/-- C4 (amended): for a source directory with a root-level "mimetype"
regular file and whose walk-order list of other files with base name
different from "mimetype" is exactly three files, the fault-free build
succeeds and the archive is exactly 4 entries: entry 0 is
"mimetype"/Store with the mimetype bytes (hence its size), followed by the
three Deflate entries named by their forward-slash relative paths with the
files' bytes (hence their decompressed sizes). -/
theorem C4_amended_four_entries {cs : List (String × FSNode)} {m : Bytes}
    {p₁ p₂ p₃ : List String} {b₁ b₂ b₃ : Bytes}
    (hm : lookupChild cs "mimetype" = some (.file m))
    (hothers : (filesUnder (sortTree (.dir cs))).filter
        (fun pb => !(decide (baseName pb.1 = "mimetype"))) =
      [(p₁, b₁), (p₂, b₂), (p₃, b₃)]) :
    (createXLSXFromDir noFaults (.present (.dir cs))).entries =
        [⟨"mimetype", .store, m⟩, ⟨joinSlash p₁, .deflate, b₁⟩,
         ⟨joinSlash p₂, .deflate, b₂⟩, ⟨joinSlash p₃, .deflate, b₃⟩] ∧
      (createXLSXFromDir noFaults (.present (.dir cs))).outcome = .ok := by
  obtain ⟨hen, hok⟩ := build_nf_file hm
  refine ⟨?_, hok⟩
  show (buildDirTrace noFaults cs).entries = _
  rw [hen, entriesOfFiles_eq_map_filter, hothers]
  rfl

/-- Witness tree for the amended C4. -/
def csC4w : List (String × FSNode) :=
  [("mimetype", .file [7]), ("b.xml", .file [1, 2]),
   ("a.xml", .file [3]), ("sub", .dir [("c.xml", .file [4, 5, 6])])]

/-- C4 (amended) witness: a concrete directory with a mimetype file and
three other files. -/
theorem C4_amended_four_entries_wit :
    lookupChild csC4w "mimetype" = some (.file [7]) ∧
      (filesUnder (sortTree (.dir csC4w))).filter
          (fun pb => !(decide (baseName pb.1 = "mimetype"))) =
        [(["a.xml"], [3]), (["b.xml"], [1, 2]), (["sub", "c.xml"], [4, 5, 6])] ∧
      ((createXLSXFromDir noFaults (.present (.dir csC4w))).entries =
          [⟨"mimetype", .store, [7]⟩, ⟨joinSlash ["a.xml"], .deflate, [3]⟩,
           ⟨joinSlash ["b.xml"], .deflate, [1, 2]⟩,
           ⟨joinSlash ["sub", "c.xml"], .deflate, [4, 5, 6]⟩] ∧
        (createXLSXFromDir noFaults (.present (.dir csC4w))).outcome = .ok) :=
  ⟨rfl, by decide, C4_amended_four_entries rfl (by decide)⟩

/-- C5: the builder never deletes the output file on any path; a failing
`os.Create` returns its error with no output file; a mimetype-block I/O
failure returns its error immediately with the partial output left in
place; and a walk failure returns immediately with the walk error wrapped
in the descriptive walk-wrapping error, partial output left in place.
There is no retry: the trace of a run is a single pass whose outcome is
the first error hit. -/
theorem C5_failures_abort (f : Faults) (cs : List (String × FSNode)) :
    (∀ src, (createXLSXFromDir f src).outDeleted = false) ∧
      (f.createOut = true →
        (createXLSXFromDir f (.present (.dir cs))).outcome = .err .createOutFailed ∧
        (createXLSXFromDir f (.present (.dir cs))).outCreated = false) ∧
      (∀ e, f.createOut = false → (mimeStage f cs).err = some e →
        (createXLSXFromDir f (.present (.dir cs))).outcome = .err e ∧
        (createXLSXFromDir f (.present (.dir cs))).outCreated = true) ∧
      (∀ we, f.createOut = false → (mimeStage f cs).err = none →
        (walkRaw f [] (sortTree (.dir cs))).err = some we →
        (createXLSXFromDir f (.present (.dir cs))).outcome = .err (.walkFailed we) ∧
        (createXLSXFromDir f (.present (.dir cs))).outCreated = true) := by
  refine ⟨build_outDeleted f, ?_, ?_, ?_⟩
  · intro h
    exact build_createOut_err f cs h
  · intro e hc hm
    exact build_mime_err f hc hm
  · intro we hc hm hw
    exact build_walk_err f hc hm hw

/-- Fault assignment for the C5 witness: copying `a.txt` fails. -/
def faultsC5 : Faults :=
  ⟨false, false, false, false, fun _ => false, fun _ => false, fun _ => false,
    fun p => decide (p = ["a.txt"])⟩

/-- C5 witness: a concrete copy failure during the walk aborts the build
with the wrapped walk error and the created output file left in place. -/
theorem C5_failures_abort_wit :
    faultsC5.createOut = false ∧
      (mimeStage faultsC5 [("a.txt", FSNode.file [1, 2])]).err = none ∧
      (walkRaw faultsC5 [] (sortTree (.dir [("a.txt", FSNode.file [1, 2])]))).err =
        some (.copyFailed ["a.txt"]) ∧
      ((createXLSXFromDir faultsC5 (.present (.dir [("a.txt", FSNode.file [1, 2])]))).outcome =
          .err (.walkFailed (.copyFailed ["a.txt"])) ∧
        (createXLSXFromDir faultsC5
          (.present (.dir [("a.txt", FSNode.file [1, 2])]))).outCreated = true) :=
  ⟨rfl, rfl, rfl,
    (C5_failures_abort faultsC5 [("a.txt", FSNode.file [1, 2])]).2.2.2
      (.copyFailed ["a.txt"]) rfl rfl rfl⟩

/-- C6: the missing `[Content_Types].xml` marker only emits a warning on
every build path, and a tree with no root-level "mimetype" file still
builds successfully with the mimetype-missing warning and exactly the
non-mimetype walk entries. -/
theorem C6_advisory_warnings (cs : List (String × FSNode)) :
    (lookupChild cs "[Content_Types].xml" = none →
      Warning.markerMissing ∈ (createXLSXFromDir noFaults (.present (.dir cs))).warnings) ∧
      (lookupChild cs "mimetype" = none →
        (createXLSXFromDir noFaults (.present (.dir cs))).outcome = .ok ∧
        Warning.mimetypeMissing ∈ (createXLSXFromDir noFaults (.present (.dir cs))).warnings ∧
        (createXLSXFromDir noFaults (.present (.dir cs))).entries =
          entriesOfFiles (filesUnder (sortTree (.dir cs)))) := by
  constructor
  · intro h
    exact build_marker_warning noFaults h
  · intro h
    obtain ⟨hen, hok, hw⟩ := build_nf_none h
    exact ⟨hok, hw, hen⟩

/-- C6 witness: a concrete tree with neither the marker nor a mimetype
file. -/
theorem C6_advisory_warnings_wit :
    Warning.markerMissing ∈
        (createXLSXFromDir noFaults (.present (.dir [("a.txt", FSNode.file [5])]))).warnings ∧
      ((createXLSXFromDir noFaults (.present (.dir [("a.txt", FSNode.file [5])]))).outcome = .ok ∧
        Warning.mimetypeMissing ∈
          (createXLSXFromDir noFaults (.present (.dir [("a.txt", FSNode.file [5])]))).warnings ∧
        (createXLSXFromDir noFaults (.present (.dir [("a.txt", FSNode.file [5])]))).entries =
          entriesOfFiles (filesUnder (sortTree (.dir [("a.txt", FSNode.file [5])])))) :=
  ⟨(C6_advisory_warnings [("a.txt", FSNode.file [5])]).1 rfl,
    (C6_advisory_warnings [("a.txt", FSNode.file [5])]).2 rfl⟩

/-- C7: directories produce no archive entries: in a successful fault-free
build, every archive entry corresponds to a regular file of the source
tree, carrying its slash-joined relative path and its bytes. -/
theorem C7_entries_from_files (cs : List (String × FSNode))
    (hok : (createXLSXFromDir noFaults (.present (.dir cs))).outcome = .ok) :
    ∀ e ∈ (createXLSXFromDir noFaults (.present (.dir cs))).entries,
      ∃ p b, (p, b) ∈ filesUnder (sortTree (.dir cs)) ∧
        e.name = joinSlash p ∧ e.content = b := by
  have hok' : (buildDirTrace noFaults cs).outcome = .ok := hok
  intro e he
  have he' : e ∈ (buildDirTrace noFaults cs).entries := he
  cases hm : lookupChild cs "mimetype" with
  | none =>
    rw [(build_nf_none hm).1] at he'
    obtain ⟨pb, hpb, hepb⟩ := entriesOfFiles_mem he'
    exact ⟨pb.1, pb.2, hpb, by rw [hepb], by rw [hepb]⟩
  | some mnode =>
    cases mnode with
    | file m =>
      rw [(build_nf_file hm).1] at he'
      rcases List.mem_cons.mp he' with heq | hmem
      · subst heq
        exact ⟨["mimetype"], m, mimetype_mem_filesUnder hm, by simp [joinSlash], rfl⟩
      · obtain ⟨pb, hpb, hepb⟩ := entriesOfFiles_mem hmem
        exact ⟨pb.1, pb.2, hpb, by rw [hepb], by rw [hepb]⟩
    | dir d =>
      rw [build_nf_dir_mimetype hm] at hok'
      simp at hok'

/-- C7 witness: a concrete entry of a concrete build traced back to its
source file. -/
theorem C7_entries_from_files_wit :
    ∃ p b, (p, b) ∈ filesUnder (sortTree (.dir [("doc.xml", FSNode.file [9])])) ∧
      (Entry.mk "doc.xml" .deflate [9]).name = joinSlash p ∧
      (Entry.mk "doc.xml" .deflate [9]).content = b :=
  C7_entries_from_files [("doc.xml", FSNode.file [9])] rfl
    ⟨"doc.xml", .deflate, [9]⟩ (by decide)

/-- C8: the build is a deterministic function of the directory state: two
source listings with distinct child names that agree after the
`readDirNames` sort at every level (i.e. contain the same files with the
same contents, in any raw listing order) produce identical traces — the
same entry sequence in the same order — under any fault environment. -/
theorem C8_deterministic_build (f : Faults) {cs₁ cs₂ : List (String × FSNode)}
    (hn₁ : (cs₁.map Prod.fst).Nodup) (hn₂ : (cs₂.map Prod.fst).Nodup)
    (heq : sortTree (.dir cs₁) = sortTree (.dir cs₂)) :
    createXLSXFromDir f (.present (.dir cs₁)) = createXLSXFromDir f (.present (.dir cs₂)) := by
  show buildDirTrace f cs₁ = buildDirTrace f cs₂
  have hm := mimeStage_congr f (lookup_map_sortTree_eq hn₁ hn₂ heq "mimetype")
  have hmk := lookup_map_sortTree_eq hn₁ hn₂ heq "[Content_Types].xml"
  have hiso : (lookupChild cs₁ "[Content_Types].xml").isSome =
      (lookupChild cs₂ "[Content_Types].xml").isSome := by
    cases h₁ : lookupChild cs₁ "[Content_Types].xml" <;>
      cases h₂ : lookupChild cs₂ "[Content_Types].xml" <;>
        rw [h₁, h₂] at hmk <;> simp_all
  unfold buildDirTrace
  rw [hm, hiso, heq]

/-- C8 witness: two raw listing orders of the same directory state build
identical traces. -/
theorem C8_deterministic_build_wit :
    (([("b", FSNode.file [2]), ("a", FSNode.file [1])].map Prod.fst).Nodup) ∧
      (([("a", FSNode.file [1]), ("b", FSNode.file [2])].map Prod.fst).Nodup) ∧
      sortTree (.dir [("b", FSNode.file [2]), ("a", FSNode.file [1])]) =
        sortTree (.dir [("a", FSNode.file [1]), ("b", FSNode.file [2])]) ∧
      createXLSXFromDir noFaults (.present (.dir [("b", FSNode.file [2]), ("a", FSNode.file [1])])) =
        createXLSXFromDir noFaults (.present (.dir [("a", FSNode.file [1]), ("b", FSNode.file [2])])) :=
  ⟨by decide, by decide, rfl, C8_deterministic_build noFaults (by decide) (by decide) rfl⟩

/-- C9: on every exit path of the build, every opened OS handle has been
closed, and whenever the output file was created both `defer`red closes —
the archive writer's flush-and-close and the output file's close — have
run.  This holds for every fault environment and every source state. -/
theorem C9_handles_closed (f : Faults) (src : SrcStat) :
    (createXLSXFromDir f src).opened = (createXLSXFromDir f src).closed ∧
      ((createXLSXFromDir f src).outCreated = true →
        (createXLSXFromDir f src).writerClosed = true ∧
        (createXLSXFromDir f src).outClosed = true) := by
  cases src with
  | notExist => exact ⟨rfl, fun h => absurd h Bool.false_ne_true⟩
  | statError => exact ⟨rfl, fun h => absurd h Bool.false_ne_true⟩
  | present t =>
    cases t with
    | file c => exact ⟨rfl, fun h => absurd h Bool.false_ne_true⟩
    | dir cs =>
      have hm := mimeStage_handles f cs
      have hw := walk_handles f [] (sortTree (.dir cs))
      show (buildDirTrace f cs).opened = (buildDirTrace f cs).closed ∧
        ((buildDirTrace f cs).outCreated = true →
          (buildDirTrace f cs).writerClosed = true ∧ (buildDirTrace f cs).outClosed = true)
      unfold buildDirTrace assembleTrace
      by_cases hc : f.createOut
      · simp [hc]
      · cases he : (mimeStage f cs).err <;> simp [hc, he, hm, hw]

/-- C9 witness: handle balance on a concrete successful build. -/
theorem C9_handles_closed_wit :
    (createXLSXFromDir noFaults (.present (.dir [("w.xml", FSNode.file [1])]))).opened =
        (createXLSXFromDir noFaults (.present (.dir [("w.xml", FSNode.file [1])]))).closed ∧
      (createXLSXFromDir noFaults (.present (.dir [("w.xml", FSNode.file [1])]))).writerClosed = true ∧
      (createXLSXFromDir noFaults (.present (.dir [("w.xml", FSNode.file [1])]))).outClosed = true :=
  ⟨(C9_handles_closed noFaults (.present (.dir [("w.xml", FSNode.file [1])]))).1,
    (C9_handles_closed noFaults (.present (.dir [("w.xml", FSNode.file [1])]))).2 rfl⟩

/-- C10: when `os.Stat` of the source fails with an error other than
non-existence, the `os.IsNotExist` check does not trigger, the nil
`FileInfo` is dereferenced by `dirInfo.IsDir()`, and the run panics: it
returns none of the specified error values and creates no output. -/
theorem C10_stat_error_panics (f : Faults) :
    (createXLSXFromDir f .statError).outcome = .panicked ∧
      (createXLSXFromDir f .statError).outCreated = false :=
  ⟨rfl, rfl⟩
